import Mathlib

/-!
Verification development for the quack build executor.  The definitions
below are shallow embeddings of the Python sources under src/quack; each
definition's doc comment names the source function it embeds.  SHA-256,
zstd and tar are treated as abstract string functions passed in as
arguments, so that every definition stays executable.
-/

/-- Spec-level error used where the source raises SpecError (exceptions.py /
models raising SpecError). -/
inductive SpecErr where
  | mk (msg : String)
deriving DecidableEq, Repr

/-- Helper: an Except value is an ok value. -/
def exceptIsOk {ε α : Type} : Except ε α → Bool
  | .ok _ => true
  | .error _ => false

/-- The single-quote character, used by the Python repr rendering. -/
def pySQuote : Char := Char.ofNat 39

/-- The double-quote character. -/
def pyDQuote : Char := Char.ofNat 34

/-- Escape one character of a Python string literal rendered with quote
character q: backslash and the quote character are backslash-escaped.
(Control characters are not modelled; checksum and path strings never
contain them.) -/
def pyEscapeChar (q c : Char) : String :=
  if c = '\\' then String.singleton '\\' ++ String.singleton '\\'
  else if c = q then String.singleton '\\' ++ String.singleton q
  else String.singleton c

/-- Python repr of a str: single-quoted unless the string contains a single
quote and no double quote, in which case it is double-quoted. -/
def pyReprStr (s : String) : String :=
  let q := if s.contains pySQuote && !(s.contains pyDQuote) then pyDQuote else pySQuote
  String.singleton q ++ String.join (s.toList.map (pyEscapeChar q)) ++ String.singleton q

/-- Python repr of a list given the reprs of its elements. -/
def pyReprList (rs : List String) : String :=
  "[" ++ String.intercalate ", " rs ++ "]"

/-- Python repr of a list of strings. -/
def pyReprStrList (xs : List String) : String :=
  pyReprList (xs.map pyReprStr)

/-- Python repr of a 2-tuple of strings. -/
def pyReprPair (p : String × String) : String :=
  "(" ++ pyReprStr p.1 ++ ", " ++ pyReprStr p.2 ++ ")"

/-- Python repr of a list of 2-tuples of strings. -/
def pyReprPairList (xs : List (String × String)) : String :=
  pyReprList (xs.map pyReprPair)

/-! ## Target execution state machine (models/target.py, Target.execute) -/

/-- models/target.py TargetExecutionMode. -/
inductive TargetExecutionMode where
  | NORMAL
  | DEPS_ONLY
  | LOAD_ONLY
deriving DecidableEq, Repr

/-- Observable actions of Target.execute: prepare_deps recursion, running
the build command, cache.load, cache.save, sys.exit(1). -/
inductive ExecEvent where
  | prepareDeps
  | build
  | load
  | save
  | exitOne
deriving DecidableEq, Repr

/-- Trace of Target.execute (models/target.py lines 198-248) as a function
of the mode, the result of cache.hit() and whether the backend is
TargetCacheBackendTypeServe.  Mirrors the branch structure of the source:
DEPS_ONLY only prepares deps; LOAD_ONLY loads on hit and exits 1 on miss;
NORMAL prepares deps first when serving, on a miss prepares deps (when not
serving), builds, and then loads on hit or saves on miss. -/
def Target.executeTrace (mode : TargetExecutionMode) (cacheExists : Bool)
    (serveBackend : Bool) : List ExecEvent :=
  match mode with
  | .DEPS_ONLY => [.prepareDeps]
  | .LOAD_ONLY => if cacheExists then [.load] else [.exitOne]
  | .NORMAL =>
    (if serveBackend then [.prepareDeps] else [])
      ++ (if cacheExists then []
          else (if serveBackend then [] else [.prepareDeps]) ++ [.build])
      ++ (if cacheExists then [.load] else [.save])

/-! ## Cache archive naming (models/target.py, cache_path and
cache_archive_filename) -/

/-- A target as the cache layer sees it: its name and its resolved
checksum value. -/
structure TargetNamed where
  name : String
  checksum : String
deriving DecidableEq, Repr

/-- models/target.py Target.cache_path. -/
def Target.cache_path (t : TargetNamed) : String :=
  t.name ++ "/" ++ (t.checksum.take 2) ++ "/" ++ (t.checksum.drop 2)

/-- models/target.py Target.cache_archive_filename (line 152): the source
returns the target name with extension .tar.gz. -/
def Target.cache_archive_filename (t : TargetNamed) : String :=
  t.name ++ ".tar.gz"

/-- utils/archiver.py Archiver.archive: tar the declared paths, then
zstd-compress the tar bytes; tar and zstd are abstract. -/
def Archiver.archiveBytes (zstdCompress : String → String)
    (tarPack : List (String × String) → String)
    (entries : List (String × String)) : String :=
  zstdCompress (tarPack entries)

/-! ## Cache backends (cache.py) -/

/-- quack/consts.py is not in the source tree; the metadata filename is an
opaque constant whose exact value no claim depends on. -/
def CACHE_METADATA_FILENAME : String := "CACHE_METADATA_FILENAME"

/-- cache.py TargetCacheBackendTypeRaw.exists: always false. -/
def RawBackend.existsEntry (_ : TargetNamed) (_ : Unit) : Bool := false

/-- cache.py TargetCacheBackendTypeRaw.save: no-op. -/
def RawBackend.save (_ : TargetNamed) (s : Unit) : Unit := s

/-- Local backend base directory xdg_cache_home/quack/app_name
(cache.py line 48); the XDG prefix is abstracted into the appBase string. -/
def LocalBackend.cachePath (appBase : String) (t : TargetNamed) : String :=
  appBase ++ "/" ++ Target.cache_path t

/-- cache.py TargetCacheBackendTypeLocal.get_archive_path. -/
def LocalBackend.archivePath (appBase : String) (t : TargetNamed) : String :=
  LocalBackend.cachePath appBase t ++ "/" ++ Target.cache_archive_filename t

/-- cache.py TargetCacheBackendTypeLocal.get_metadata_path. -/
def LocalBackend.metadataPath (appBase : String) (t : TargetNamed) : String :=
  LocalBackend.cachePath appBase t ++ "/" ++ CACHE_METADATA_FILENAME

/-- cache.py TargetCacheBackendTypeLocal.exists: presence of the metadata
file.  The filesystem is the list of file paths present. -/
def LocalBackend.existsEntry (appBase : String) (t : TargetNamed)
    (fs : List String) : Bool :=
  fs.contains (LocalBackend.metadataPath appBase t)

/-- cache.py TargetCacheBackendTypeLocal.save: writes the archive and then
the metadata file under the cache path. -/
def LocalBackend.save (appBase : String) (t : TargetNamed)
    (fs : List String) : List String :=
  LocalBackend.metadataPath appBase t :: LocalBackend.archivePath appBase t :: fs

/-- State of the OSS-backed backend: the local L1 filesystem plus the set
of keys present in the object store. -/
structure OssState where
  localFs : List String
  remote : List String
deriving DecidableEq, Repr

/-- cache.py TargetCacheBackendTypeOSS key of the metadata object. -/
def OssBackend.metadataKey (basePath : String) (t : TargetNamed) : String :=
  basePath ++ "/" ++ Target.cache_path t ++ "/" ++ CACHE_METADATA_FILENAME

/-- cache.py TargetCacheBackendTypeOSS key of the archive object. -/
def OssBackend.archiveKey (basePath : String) (t : TargetNamed) : String :=
  basePath ++ "/" ++ Target.cache_path t ++ "/" ++ Target.cache_archive_filename t

/-- cache.py TargetCacheBackendTypeOSS commit metadata key
(_commits/commit_sha/name.json), used when save_for_load is set. -/
def OssBackend.commitMetadataKey (basePath commitSha : String)
    (t : TargetNamed) : String :=
  basePath ++ "/_commits/" ++ commitSha ++ "/" ++ t.name ++ ".json"

/-- cache.py TargetCacheBackendTypeOSS.exists: oss exists on the metadata
key. -/
def OssBackend.existsEntry (basePath : String) (t : TargetNamed)
    (s : OssState) : Bool :=
  s.remote.contains (OssBackend.metadataKey basePath t)

/-- cache.py TargetCacheBackendTypeOSS.save: local save first, then upload
archive and metadata; when save_for_load is configured and a commit sha is
known, also upload the commit metadata object. -/
def OssBackend.save (basePath appBase : String) (saveForLoad : Bool)
    (commitSha : String) (t : TargetNamed) (s : OssState) : OssState :=
  let l := LocalBackend.save appBase t s.localFs
  let r := OssBackend.metadataKey basePath t
             :: OssBackend.archiveKey basePath t :: s.remote
  let r := if saveForLoad && commitSha ≠ "" then
             OssBackend.commitMetadataKey basePath commitSha t :: r
           else r
  ⟨l, r⟩

/-- State of the dev backend: its own dev-tier OSS state plus the keys of
the CI-tier store it peeks into. -/
structure DevState where
  localFs : List String
  devRemote : List String
  ciRemote : List String
deriving DecidableEq, Repr

/-- cache.py TargetCacheBackendTypeDev.exists: true when the CI tier has
the entry, else when the dev tier has it. -/
def DevBackend.existsEntry (ciBase devBase : String) (t : TargetNamed)
    (s : DevState) : Bool :=
  if OssBackend.existsEntry ciBase t ⟨s.localFs, s.ciRemote⟩ then true
  else OssBackend.existsEntry devBase t ⟨s.localFs, s.devRemote⟩

/-- cache.py TargetCacheBackendTypeDev.save: inherited from the OSS
backend, writing to the dev-tier base path. -/
def DevBackend.save (devBase appBase : String) (saveForLoad : Bool)
    (commitSha : String) (t : TargetNamed) (s : DevState) : DevState :=
  let o := OssBackend.save devBase appBase saveForLoad commitSha t
             ⟨s.localFs, s.devRemote⟩
  ⟨o.localFs, o.remote, s.ciRemote⟩

/-! ## Loading by CI job (db.py, models/target.py Target.get_by_job,
cli.py execute_target) -/

/-- db.py TargetChecksum row of the quack_target_checksum table. -/
structure TargetChecksum where
  app_name : String
  commit_sha : String
  mr_iid : Nat
  pipeline_id : Nat
  job_name : String
  target_name : String
  checksum : String
deriving DecidableEq, Repr

/-- The contents of the MySQL table behind db.py DB.query_checksum, as a
lookup keyed exactly like the SELECT: app_name, commit_sha, job_name,
target_name. -/
def DBOracle : Type := String → String → String → String → Option TargetChecksum

/-- db.py DB.query_checksum. -/
def DB.query_checksum (db : DBOracle) (appName commitSha jobName targetName :
    String) : Option TargetChecksum :=
  db appName commitSha jobName targetName

/-- A target as Target.get_by_job sees it: its name and the memoised or
externally assigned checksum cell. -/
structure TargetSt where
  name : String
  checksum_value : Option String
deriving DecidableEq, Repr

/-- models/target.py Target.get_by_job: query the DB for the checksum
recorded for (app, commit sha, job, target); on a hit assign
target.checksum_value from the row, otherwise raise DBNotFoundError. -/
def Target.get_by_job (db : DBOracle) (appName commitSha jobName :
    String) (t : TargetSt) : Except SpecErr TargetSt :=
  match DB.query_checksum db appName commitSha jobName t.name with
  | none => .error (.mk "checksum not found in DB")
  | some tc => .ok { t with checksum_value := some tc.checksum }

/-- Outcome of cli.py execute_target in LOAD_ONLY mode: either the process
exits with status 1, or the target engine is invoked with the checksum
assigned from the DB row (the normal cache lookup then runs at that
fingerprint). -/
inductive LoadOnlyOutcome where
  | exitOne
  | proceeded (checksum : String)
deriving DecidableEq, Repr

/-- cli.py execute_target, LOAD_ONLY branch (lines 85-93): resolve the
target by job via the DB; a DBNotFoundError aborts with exit code 1,
otherwise the engine proceeds with the assigned checksum. -/
def execute_target_loadOnly (db : DBOracle) (appName commitSha jobName :
    String) (t : TargetSt) : LoadOnlyOutcome :=
  match Target.get_by_job db appName commitSha jobName t with
  | .error _ => .exitOne
  | .ok t => .proceeded (t.checksum_value.getD "")

/-- Formalisation of claim C2 exactly as the spec words it (spec section
4.6, Loading by commit SHA): the engine reads the CI-tier commit-index
object at base/_commits/commit_sha/target.json, and proceeds with the
target_checksum found there; if no such object exists it aborts.  The
cloudIndex argument maps an object key to the target_checksum stored in
the JSON document at that key. -/
def execute_target_loadOnly_claimed (cloudIndex : String → Option String)
    (basePath commitSha targetName : String) : LoadOnlyOutcome :=
  match cloudIndex (basePath ++ "/_commits/" ++ commitSha ++ "/"
      ++ targetName ++ ".json") with
  | none => .exitOne
  | some cs => .proceeded cs

/-! ## Fingerprinting (models/dependency.py, models/target.py
compute_checksum) -/

/-- The process environment a fingerprint computation reads: the candidate
files (git ls-files output restricted to files that exist), a file-content
SHA-256 oracle, the process environment variables, a command stdout
oracle, a compiled-regex match oracle, and the checksums of upstream
targets. -/
structure PyEnv where
  files : List String
  fileHash : String → String
  vars : List (String × String)
  cmdOut : String → String
  regexMatch : String → String → Bool
  targetChecksum : String → String

/-- Accumulator of DependencyTypeSource.get_matched_files: the matched set
(kept in insertion order, deduplicated like a Python set over distinct
file lines) and the per-pattern matched_counts defaultdict. -/
structure MFAcc where
  matched : List String
  counts : String → Nat

/-- Increment a matched_counts entry. -/
def bumpCount (c : String → Nat) (p : String) : String → Nat :=
  fun q => if q = p then c q + 1 else c q

/-- One iteration of the file loop in get_matched_files
(models/dependency.py lines 59-75): the include loop counts and accepts at
the first matching include pattern; the exclude loop always runs and
counts and rejects at the first matching exclude pattern. -/
def mfStep (env : PyEnv) (paths excludes : List String) (acc : MFAcc)
    (f : String) : MFAcc :=
  let incl := paths.find? (fun p => env.regexMatch p f)
  let c1 := match incl with
    | some p => bumpCount acc.counts p
    | none => acc.counts
  let excl := excludes.find? (fun p => env.regexMatch p f)
  let c2 := match excl with
    | some p => bumpCount c1 p
    | none => c1
  let m := if excl.isSome then false else incl.isSome
  { matched := if m then
      (if acc.matched.contains f then acc.matched else acc.matched ++ [f])
    else acc.matched,
    counts := c2 }

/-- Lexicographic code-point comparison of character lists (the order
Python sorted uses on str). -/
def charListLe : List Char → List Char → Bool
  | [], _ => true
  | _ :: _, [] => false
  | a :: as, b :: bs =>
    if a.val < b.val then true
    else if b.val < a.val then false
    else charListLe as bs

/-- Code-point lexicographic comparison of strings. -/
def strLe (a b : String) : Bool := charListLe a.toList b.toList

/-- Sort a list of strings ascending (Python sorted on str). -/
def sortStrings (l : List String) : List String :=
  l.insertionSort (fun a b => strLe a b)

/-- models/dependency.py DependencyTypeSource.get_matched_files: loop over
the candidate files, then raise SpecError when any pattern of paths or
excludes has matched_counts zero, else return the sorted matched list. -/
def getMatchedFiles (env : PyEnv) (paths excludes : List String) :
    Except SpecErr (List String) :=
  let acc := env.files.foldl (mfStep env paths excludes) ⟨[], fun _ => 0⟩
  if (paths ++ excludes).all (fun p => acc.counts p ≠ 0) then
    .ok (sortStrings acc.matched)
  else
    .error (.mk "no file matched some pattern")

/-- models/dependency.py DependencyTypeSource.get_matched_files_with_checksum
followed by compute_checksum: SHA-256 of the repr of the sorted
(path, file sha256) pairs. -/
def DependencyTypeSource.compute_checksum (sha256 : String → String)
    (env : PyEnv) (paths excludes : List String) : Except SpecErr String := do
  let fs ← getMatchedFiles env paths excludes
  .ok (sha256 (pyReprPairList (fs.map (fun p => (p, env.fileHash p)))))

/-- Environment-variable match of DependencyTypeVariable.get_matched_variables:
some name pattern matches and no exclude pattern matches. -/
def variableMatched (env : PyEnv) (names excludes : List String)
    (k : String) : Bool :=
  (names.find? (fun p => env.regexMatch p k)).isSome
    && !(excludes.find? (fun p => env.regexMatch p k)).isSome

/-- Sort string pairs by first component (Python sorted with key x0). -/
def sortPairsByKey (l : List (String × String)) : List (String × String) :=
  l.insertionSort (fun a b => strLe a.1 b.1)

/-- models/dependency.py dependency variants (the tagged union after
global resolution; DependencyTypeVariable is named var because variable is
a Lean keyword). -/
inductive Dependency where
  | source (paths excludes : List String)
  | command (commands : List String)
  | var (names excludes : List String)
  | target (name : String)
deriving DecidableEq, Repr

/-- checksum_value of each dependency kind (models/dependency.py
compute_checksum of each class): source as above; command is the repr of
the (command, stdout) pairs in declared order; variable is the repr of the
matched environment pairs sorted by name; target is the upstream target
checksum. -/
def Dependency.checksum_value (sha256 : String → String) (env : PyEnv) :
    Dependency → Except SpecErr String
  | .source ps ex => DependencyTypeSource.compute_checksum sha256 env ps ex
  | .command cs =>
      .ok (sha256 (pyReprPairList (cs.map (fun c => (c, env.cmdOut c)))))
  | .var ns ex =>
      .ok (sha256 (pyReprPairList (sortPairsByKey
        (env.vars.filter (fun kv => variableMatched env ns ex kv.1)))))
  | .target n => .ok (env.targetChecksum n)

/-- A target as the fingerprinting engine sees it: its ordered dependency
list. -/
structure TargetFp where
  name : String
  dependencies : List Dependency

/-- The list comprehension hash_tuple of models/target.py compute_checksum
(line 185): dependency checksums taken left to right, the first raised
SpecError propagating. -/
def depChecksumList (sha256 : String → String) (env : PyEnv) :
    List Dependency → Except SpecErr (List String)
  | [] => .ok []
  | d :: ds => do
    let c ← Dependency.checksum_value sha256 env d
    let cs ← depChecksumList sha256 env ds
    .ok (c :: cs)

/-- models/target.py Target.compute_checksum: SHA-256 of the Python repr
of the list of dependency checksum values. -/
def Target.compute_checksum (sha256 : String → String) (env : PyEnv)
    (t : TargetFp) : Except SpecErr String := do
  let hashTuple ← depChecksumList sha256 env t.dependencies
  .ok (sha256 (pyReprStrList hashTuple))

/-! ## Content-aware extraction (utils/archiver.py extract and
_sync_with_checksum) -/

/-- A destination file: its content and its mtime. -/
structure FileState where
  content : String
  mtime : Nat
deriving DecidableEq, Repr

/-- The destination filesystem: a partial map from path to file state. -/
def FS : Type := String → Option FileState

/-- utils/archiver.py _sync_with_checksum, one file: if the destination
exists and the SHA-256 of the archived content equals the SHA-256 of the
destination content, leave the destination untouched; otherwise copy the
archived content over and set the destination mtime to the current time. -/
def syncFile (hash : String → String) (now : Nat) (fs : FS)
    (pc : String × String) : FS :=
  fun q =>
    if q = pc.1 then
      match fs pc.1 with
      | some st =>
          if hash pc.2 = hash st.content then some st else some ⟨pc.2, now⟩
      | none => some ⟨pc.2, now⟩
    else fs q

/-- utils/archiver.py Archiver.extract: decompress into a temp directory
(the archive is modelled as its decompressed list of path-content entries)
and sync every file into the destination. -/
def Archiver.extract (hash : String → String) (now : Nat)
    (archive : List (String × String)) (fs : FS) : FS :=
  archive.foldl (syncFile hash now) fs

/-- utils/archiver.py Archiver.archive, seen at the file-set level: the
entries packed into the tar are the declared paths with their current
contents (paths are stored as declared; a missing path would make tar.add
fail, so packing is defined under the hypothesis that all paths exist,
absent paths contributing nothing here). -/
def Archiver.pack (fs : FS) (paths : List String) : List (String × String) :=
  paths.filterMap (fun p => (fs p).map (fun st => (p, st.content)))

/-! ## Spec post-processing of dependencies (spec.py post_process) -/

/-- A dependency entry as spec.py post_process manipulates it: its type
tag, its name, its propagate flag, and the rest of its payload collapsed
into one field (model equality is structural, like pydantic model
equality). -/
structure DepM where
  kind : String
  name : String
  propagate : Bool
  payload : String := ""
deriving DecidableEq, Repr

/-- First index of an element in a list (Python list.index), none when
absent (Python raises ValueError). -/
def depIndex (a : DepM) : List DepM → Option Nat
  | [] => none
  | b :: l => if b = a then some 0 else (depIndex a l).map (· + 1)

/-- Name lookup in the global_dependencies mapping. -/
def lookupGlobal (globals : List (String × DepM)) (n : String) :
    Option DepM :=
  (globals.find? (fun g => g.1 = n)).map (fun g => g.2)

/-- The in-place replacement loop of spec.py post_process (lines 140-144):
walk the dependency list by position; for a global-kind entry, resolve it
by name (error when unresolved) and assign the resolution at the index of
the first occurrence equal to the entry.  The walk visits one position per
step; the fuel argument counts the remaining positions (the list length is
invariant under List.set), keeping the recursion structural. -/
def resolveGlobalRefs (globals : List (String × DepM)) :
    Nat → List DepM → Nat → Except SpecErr (List DepM)
  | 0, cur, _ => .ok cur
  | fuel + 1, cur, i =>
    if h : i < cur.length then
      let d := cur.get ⟨i, h⟩
      if d.kind = "global" then
        match lookupGlobal globals d.name with
        | none => .error (.mk "global dependency does not exist")
        | some g =>
            match depIndex d cur with
            | none => .error (.mk "value error")
            | some idx => resolveGlobalRefs globals fuel (cur.set idx g) (i + 1)
      else resolveGlobalRefs globals fuel cur (i + 1)
    else
      .ok cur

/-- The propagating global dependencies in declaration order (spec.py line
137). -/
def propagatingGlobals (globals : List (String × DepM)) : List DepM :=
  (globals.map (fun g => g.2)).filter (fun d => d.propagate)

/-- spec.py post_process on one target's dependency list: prepend the
propagating globals, then run the global-reference replacement loop over
every position. -/
def postProcessDeps (globals : List (String × DepM)) (deps : List DepM) :
    Except SpecErr (List DepM) :=
  let start := propagatingGlobals globals ++ deps
  resolveGlobalRefs globals start.length start 0

/-! ## Target construction (models/target.py Target.init, lines 67-97) -/

/-- The implicit source:quack dependency dict inserted at position 0 of
every target's declared dependency list. -/
def sourceQuackRef : DepM := { kind := "global", name := "source:quack", propagate := false }

/-- The global-resolution loop of Target.init: iterate over a copy of the
list; for each global-kind entry, find the index of its first occurrence
in the current list, remove it there and insert the resolution from
spec.global_dependencies at the same index (remove-then-insert at the
first-occurrence index is List.set); an unknown global name raises
SpecError. -/
def initResolveLoop (globals : List (String × DepM)) :
    List DepM → List DepM → Except SpecErr (List DepM)
  | [], cur => .ok cur
  | d :: rest, cur =>
    if d.kind = "global" then
      match lookupGlobal globals d.name with
      | none => .error (.mk "target has unknown global dependency")
      | some g =>
          match depIndex d cur with
          | none => .error (.mk "value error")
          | some idx => initResolveLoop globals rest (cur.set idx g)
    else initResolveLoop globals rest cur

/-- The dispatch at the end of Target.init: every resolved entry must be
of a known dependency kind, else SpecError; constructing the typed
dependency object keeps the entry's data. -/
def dispatchKind (d : DepM) : Except SpecErr DepM :=
  if d.kind = "command" ∨ d.kind = "source" ∨ d.kind = "target"
      ∨ d.kind = "variable" then
    .ok d
  else
    .error (.mk "target has unknown dependency type")

/-- The final construction loop of Target.init: dispatch every entry in
order, the first SpecError propagating. -/
def dispatchAll : List DepM → Except SpecErr (List DepM)
  | [] => .ok []
  | d :: l => do
    let x ← dispatchKind d
    let xs ← dispatchAll l
    .ok (x :: xs)

/-- models/target.py Target.init dependency handling: insert the implicit
global source:quack reference at position 0, resolve all global
references, then dispatch each entry on its kind. -/
def targetInitDeps (globals : List (String × DepM))
    (declared : List DepM) : Except SpecErr (List DepM) := do
  let resolved ← initResolveLoop globals (sourceQuackRef :: declared)
      (sourceQuackRef :: declared)
  dispatchAll resolved

/-! ## Output inheritance (spec.py post_process lines 146-162,
models/target.py Target.outputs) -/

/-- A target as the output-inheritance fixpoint sees it: its declared
output paths, its inherit flag, and the indices of its target-kind
dependencies.  Targets are indexed so that, on a DAG, dependencies can be
listed before dependents. -/
structure TOut where
  paths : List String
  inherit : Bool
  deps : List Nat
deriving DecidableEq, Repr

instance : Inhabited TOut := ⟨⟨[], false, []⟩⟩

/-- The memoised recursion get_outputs of spec.py post_process: a target's
outputs are its declared paths, together with the recursive outputs of its
target-kind dependencies when inherit is set.  The source recurses
directly (terminating on a DAG); the embedding uses explicit fuel, and
only ever recurses into dependencies of smaller index, which on a
topologically indexed DAG is all of them. -/
def getOutputsFuel (T : List TOut) : Nat → Nat → List String
  | 0, _ => []
  | fuel + 1, i =>
    let t := T.getD i default
    t.paths ++ (if t.inherit then
      (t.deps.filter (fun j => decide (j < i))).flatMap
        (fun j => getOutputsFuel T fuel j)
    else [])

/-- get_outputs with enough fuel for index i. -/
def getOutputs (T : List TOut) (i : Nat) : List String :=
  getOutputsFuel T (i + 1) i

/-- spec.py post_process final loop: targets with inherit get the fixpoint
outputs, others keep their declared paths. -/
def finalOutputPaths (T : List TOut) (i : Nat) : List String :=
  if (T.getD i default).inherit then getOutputs T i
  else (T.getD i default).paths

/-! ## Theorems -/

/-- Claim C1 as stated is false: on a NORMAL-mode cache miss with a
non-serve backend, Target.execute prepares deps, builds and saves, and
never performs a cache load after the save (the source branches on the
cache_exists value captured before building: the save branch is taken
instead of, not followed by, a load). -/
theorem execute_normal_miss_never_loads :
    Target.executeTrace .NORMAL false false = [.prepareDeps, .build, .save] ∧
    ExecEvent.load ∉ Target.executeTrace .NORMAL false false := by
  decide

/-- Claim C1 amended: in NORMAL mode a cache miss recurses into upstream
targets, runs the build command and saves to cache, finishing with the
save (no subsequent load); a cache hit loads from cache without building
(the serve backend additionally prepares deps first). -/
theorem execute_normal_mode_behaviour (serveBackend : Bool) :
    Target.executeTrace .NORMAL false serveBackend
        = [.prepareDeps, .build, .save] ∧
    Target.executeTrace .NORMAL true serveBackend
        = (if serveBackend then [.prepareDeps, .load] else [.load]) := by
  cases serveBackend <;> decide

/-- Claim C7: evaluating the code at a concrete target shows the archive
filename extension is .tar.gz, not the .tar.zst that the spec and the
repository's own test (target_test.py, test_cache_archive_filename)
require, although the archiver writes zstd-compressed tars. -/
theorem cache_archive_filename_eval :
    Target.cache_archive_filename ⟨"quack:test", "c0"⟩ = "quack:test.tar.gz" ∧
    Target.cache_archive_filename ⟨"quack:test", "c0"⟩ ≠ "quack:test.tar.zst" := by
  decide

/-- Claim C3 as stated is false for the Raw backend: its save is a no-op
and its exists is constantly false, so a successful save is not followed
by a positive exists. -/
theorem raw_backend_save_then_exists_false :
    RawBackend.existsEntry ⟨"quack:test", "ab12"⟩
      (RawBackend.save ⟨"quack:test", "ab12"⟩ ()) = false := by
  rfl

/-- Claim C3 amended: for the Local, OSS (cloud) and Dev backends, a save
makes an immediately subsequent exists on the same target and fingerprint
return true; the Raw backend (exists constantly false) is excluded. -/
theorem save_then_exists_local_oss_dev (appBase basePath ciBase devBase :
    String) (saveForLoad : Bool) (commitSha : String) (t : TargetNamed)
    (fs : List String) (s : OssState) (d : DevState) :
    LocalBackend.existsEntry appBase t (LocalBackend.save appBase t fs)
        = true ∧
    OssBackend.existsEntry basePath t
        (OssBackend.save basePath appBase saveForLoad commitSha t s)
        = true ∧
    DevBackend.existsEntry ciBase devBase t
        (DevBackend.save devBase appBase saveForLoad commitSha t d)
        = true := by
  refine ⟨?_, ?_, ?_⟩
  · simp [LocalBackend.existsEntry, LocalBackend.save]
  · simp only [OssBackend.existsEntry, OssBackend.save]
    split <;> simp [List.contains_cons]
  · simp only [DevBackend.existsEntry, DevBackend.save, OssBackend.existsEntry,
      OssBackend.save]
    split
    · rfl
    · split <;> simp [List.contains_cons]

/-- A DB with no rows. -/
def dbEmpty : DBOracle := fun _ _ _ _ => none

/-- A cloud commit-index holding a checksum for commit sha1 of target
quack:test. -/
def cloudIndexOne : String → Option String := fun k =>
  if k = ".quack-cache/app/_commits/sha1/quack:test.json" then some "abc"
  else none

/-- Claim C2 as stated is false: with an empty checksum database the code
aborts with exit 1 even when the CI-tier cloud commit-index object for the
commit SHA exists and holds a checksum; the spec-side reading (consult the
cloud commit index) would proceed with that checksum instead.  The source
consults only the MySQL-backed DB (db.py query_checksum, keyed by
app_name, commit_sha, job_name, target_name). -/
theorem load_only_ignores_cloud_commit_index :
    execute_target_loadOnly dbEmpty "app" "sha1" "job"
        ⟨"quack:test", none⟩ = .exitOne ∧
    execute_target_loadOnly_claimed cloudIndexOne ".quack-cache/app" "sha1"
        "quack:test" = .proceeded "abc" ∧
    (LoadOnlyOutcome.exitOne ≠ LoadOnlyOutcome.proceeded "abc") := by
  refine ⟨rfl, ?_, by decide⟩
  rfl

/-- Claim C2 amended: in LOAD_ONLY mode the engine queries the checksum
database (db.py, table quack_target_checksum) keyed by app name, commit
SHA, job name and target name; on a hit it assigns target.checksum_value
from the row's checksum and proceeds with the normal cache lookup at that
fingerprint; when no row exists the invocation aborts with exit code 1. -/
theorem load_only_db_behaviour (db : DBOracle)
    (appName commitSha jobName : String) (t : TargetSt) :
    (∀ tc, DB.query_checksum db appName commitSha jobName t.name = some tc →
      Target.get_by_job db appName commitSha jobName t
          = .ok { t with checksum_value := some tc.checksum } ∧
      execute_target_loadOnly db appName commitSha jobName t
          = .proceeded tc.checksum) ∧
    (DB.query_checksum db appName commitSha jobName t.name = none →
      execute_target_loadOnly db appName commitSha jobName t = .exitOne) := by
  constructor
  · intro tc h
    constructor
    · simp [Target.get_by_job, h]
    · simp [execute_target_loadOnly, Target.get_by_job, h]
  · intro h
    simp [execute_target_loadOnly, Target.get_by_job, h]

/-- A DB holding exactly one row. -/
def dbOneRow : DBOracle := fun a s j t =>
  if a = "app" && s = "sha1" && j = "job" && t = "quack:test" then
    some ⟨"app", "sha1", 1, 2, "job", "quack:test", "abc"⟩
  else none

/-- Witness for load_only_db_behaviour at a concrete database. -/
theorem load_only_db_behaviour_witness :
    execute_target_loadOnly dbOneRow "app" "sha1" "job" ⟨"quack:test", none⟩
      = .proceeded "abc" :=
  ((load_only_db_behaviour dbOneRow "app" "sha1" "job"
      ⟨"quack:test", none⟩).1
    ⟨"app", "sha1", 1, 2, "job", "quack:test", "abc"⟩ (by decide)).2

/-- The checksum list comprehension succeeds with a list of the same
length whose entries are the dependency checksums position by position. -/
theorem depChecksumList_ok_pointwise (sha256 : String → String)
    (env : PyEnv) :
    ∀ (ds : List Dependency) (L : List String),
      depChecksumList sha256 env ds = .ok L →
      L.length = ds.length ∧
      ∀ i (hi : i < ds.length) (hL : i < L.length),
        Dependency.checksum_value sha256 env (ds.get ⟨i, hi⟩)
          = .ok (L.get ⟨i, hL⟩) := by
  intro ds
  induction ds with
  | nil =>
    intro L h
    simp [depChecksumList] at h
    subst h
    exact ⟨rfl, by intro i hi; simp at hi⟩
  | cons d ds ih =>
    intro L h
    simp only [depChecksumList, bind, Except.bind] at h
    cases hc : Dependency.checksum_value sha256 env d with
    | error e => rw [hc] at h; exact absurd h (by simp)
    | ok c =>
      rw [hc] at h
      cases hrec : depChecksumList sha256 env ds with
      | error e => rw [hrec] at h; exact absurd h (by simp)
      | ok cs =>
        rw [hrec] at h
        simp only [pure, Except.pure, Except.ok.injEq] at h
        subst h
        obtain ⟨hlen, hget⟩ := ih cs hrec
        refine ⟨by simp [hlen], ?_⟩
        intro i hi hL
        cases i with
        | zero => simpa using hc
        | succ j =>
          have hj : j < ds.length := by simpa using hi
          have hjL : j < cs.length := by simpa using hL
          simpa using hget j hj hjL

/-- Claim C4: the target fingerprint is SHA-256 of the Python repr of the
ordered list of its dependencies' checksum values, taken left to right in
declared order, neither reordered nor deduplicated (the hash input list
has exactly one entry per dependency, position by position). -/
theorem target_fingerprint_repr_of_dep_checksums (sha256 : String → String)
    (env : PyEnv) (t : TargetFp) (L : List String)
    (h : depChecksumList sha256 env t.dependencies = .ok L) :
    Target.compute_checksum sha256 env t
        = .ok (sha256 (pyReprStrList L)) ∧
    L.length = t.dependencies.length ∧
    ∀ i (hi : i < t.dependencies.length) (hL : i < L.length),
      Dependency.checksum_value sha256 env (t.dependencies.get ⟨i, hi⟩)
        = .ok (L.get ⟨i, hL⟩) := by
  obtain ⟨hlen, hget⟩ := depChecksumList_ok_pointwise sha256 env
    t.dependencies L h
  refine ⟨?_, hlen, hget⟩
  simp [Target.compute_checksum, h, bind, Except.bind]

/-- A concrete fingerprinting environment: two equal target-kind
dependencies, whose checksums both appear in the hash input. -/
def c4Env : PyEnv :=
  { files := [], fileHash := fun _ => "", vars := [], cmdOut := fun _ => "",
    regexMatch := fun _ _ => false, targetChecksum := fun _ => "tch" }

/-- A target with a duplicated dependency. -/
def c4Target : TargetFp := ⟨"t", [.target "u", .target "u"]⟩

/-- Witness for target_fingerprint_repr_of_dep_checksums: at a concrete
environment and target the fingerprint evaluates to the repr of both
(duplicate) dependency checksums. -/
theorem target_fingerprint_witness :
    Target.compute_checksum (fun s => s) c4Env c4Target
      = .ok (pyReprStrList ["tch", "tch"]) :=
  (target_fingerprint_repr_of_dep_checksums (fun s => s) c4Env c4Target
    ["tch", "tch"] (by rfl)).1

/-- Folding the sync over entries whose path differs from p leaves p
untouched. -/
theorem extract_untouched_keys (hash : String → String) (now : Nat) :
    ∀ (l : List (String × String)) (fs : FS) (p : String),
      (∀ e ∈ l, e.1 ≠ p) → Archiver.extract hash now l fs p = fs p := by
  intro l
  induction l with
  | nil => intro fs p _; rfl
  | cons e l ih =>
    intro fs p h
    have h1 : e.1 ≠ p := h e (by simp)
    have hstep : Archiver.extract hash now (e :: l) fs
        = Archiver.extract hash now l (syncFile hash now fs e) := rfl
    rw [hstep, ih _ p (fun x hx => h x (by simp [hx]))]
    simp only [syncFile]
    rw [if_neg (fun hq => h1 hq.symm)]

/-- The effect of extraction at the path of one archived file: untouched
when the destination hash matches, copied with mtime now otherwise. -/
theorem extract_at_key (hash : String → String) (now : Nat) :
    ∀ (l : List (String × String)) (fs : FS) (p c : String),
      (p, c) ∈ l → (l.map Prod.fst).Nodup →
      Archiver.extract hash now l fs p =
        (match fs p with
         | some st =>
             if hash c = hash st.content then some st else some ⟨c, now⟩
         | none => some ⟨c, now⟩) := by
  intro l
  induction l with
  | nil => intro fs p c hmem; simp at hmem
  | cons e l ih =>
    intro fs p c hmem hnd
    rw [List.map_cons] at hnd
    have hnd1 : e.1 ∉ l.map Prod.fst := (List.nodup_cons.mp hnd).1
    have hnd2 : (l.map Prod.fst).Nodup := (List.nodup_cons.mp hnd).2
    rcases List.mem_cons.mp hmem with heq | hl
    · have hpe : e = (p, c) := heq.symm
      subst hpe
      have hnotin : ∀ x ∈ l, x.1 ≠ p := by
        intro x hx hx1
        exact hnd1 (by simpa [hx1] using List.mem_map_of_mem Prod.fst hx)
      have hstep : Archiver.extract hash now ((p, c) :: l) fs
          = Archiver.extract hash now l (syncFile hash now fs (p, c)) := rfl
      rw [hstep, extract_untouched_keys hash now l _ p hnotin]
      simp [syncFile]
    · have hp : p ∈ l.map Prod.fst := by
        simpa using List.mem_map_of_mem Prod.fst hl
      have hne : e.1 ≠ p := fun hq => hnd1 (hq ▸ hp)
      have hstep : Archiver.extract hash now (e :: l) fs
          = Archiver.extract hash now l (syncFile hash now fs e) := rfl
      rw [hstep, ih _ p c hl hnd2]
      have hfs : syncFile hash now fs e p = fs p := by
        simp only [syncFile]
        rw [if_neg (fun hq => hne hq.symm)]
      rw [hfs]

/-- Extraction of an archive all of whose entries equal the destination
contents is the identity on the filesystem. -/
theorem extract_pack_same (hash : String → String) (now : Nat) :
    ∀ (l : List (String × String)) (fs : FS),
      (∀ e ∈ l, ∃ st, fs e.1 = some st ∧ st.content = e.2) →
      Archiver.extract hash now l fs = fs := by
  intro l
  induction l with
  | nil => intro fs _; rfl
  | cons e l ih =>
    intro fs h
    obtain ⟨st, hst, hcontent⟩ := h e (by simp)
    have hsync : syncFile hash now fs e = fs := by
      funext q
      simp only [syncFile]
      by_cases hq : q = e.1
      · subst hq
        rw [hst]
        simp [hcontent]
      · rw [if_neg hq]
    have hstep : Archiver.extract hash now (e :: l) fs
        = Archiver.extract hash now l (syncFile hash now fs e) := rfl
    rw [hstep, hsync]
    exact ih fs (fun x hx => h x (by simp [hx]))

/-- Claim C5: extraction is content-aware: an archived file whose
destination exists with the same SHA-256 is left untouched (mtime
preserved); a file whose destination is absent or differs in SHA-256 is
copied with mtime set to now; and extracting an archive packed from the
same unchanged location leaves the whole filesystem, mtimes included,
unchanged. -/
theorem archiver_extract_content_aware (hash : String → String) (now : Nat)
    (archive : List (String × String)) (fs : FS) (p c : String)
    (hmem : (p, c) ∈ archive) (hnd : (archive.map Prod.fst).Nodup) :
    (∀ st, fs p = some st → hash c = hash st.content →
        Archiver.extract hash now archive fs p = some st) ∧
    (fs p = none → Archiver.extract hash now archive fs p = some ⟨c, now⟩) ∧
    (∀ st, fs p = some st → hash c ≠ hash st.content →
        Archiver.extract hash now archive fs p = some ⟨c, now⟩) ∧
    (∀ (fs2 : FS) (paths : List String),
        Archiver.extract hash now (Archiver.pack fs2 paths) fs2 = fs2) := by
  have hkey := extract_at_key hash now archive fs p c hmem hnd
  refine ⟨?_, ?_, ?_, ?_⟩
  · intro st hst hh
    rw [hkey, hst]
    simp [hh]
  · intro hst
    rw [hkey, hst]
  · intro st hst hh
    rw [hkey, hst]
    simp [hh]
  · intro fs2 paths
    apply extract_pack_same
    intro e he
    rcases List.mem_filterMap.mp he with ⟨q, _, hq⟩
    rcases Option.map_eq_some'.mp hq with ⟨st, hst, hpair⟩
    subst hpair
    exact ⟨st, hst, rfl⟩

/-- A concrete destination holding file a with content x and mtime 5. -/
def c5Fs : FS := fun q => if q = "a" then some ⟨"x", 5⟩ else none

/-- Witness for archiver_extract_content_aware: extracting an archive
whose entry equals the destination content leaves the mtime at 5. -/
theorem archiver_extract_witness :
    Archiver.extract (fun s => s) 9 [("a", "x")] c5Fs "a" = some ⟨"x", 5⟩ :=
  (archiver_extract_content_aware (fun s => s) 9 [("a", "x")] c5Fs "a" "x"
    (by decide) (by decide)).1 ⟨"x", 5⟩ (by rfl) (by rfl)

/-- How often a pattern is charged in matched_counts: once per candidate
file for which it is the first matching include pattern, plus once per
candidate file for which it is the first matching exclude pattern. -/
def firstMatchCount (env : PyEnv) (paths excludes : List String)
    (p : String) : Nat :=
  (env.files.filter
      (fun f => paths.find? (fun q => env.regexMatch q f) == some p)).length
    + (env.files.filter
        (fun f => excludes.find? (fun q => env.regexMatch q f) == some p)).length

/-- A candidate file is retained when some include pattern matches it and
no exclude pattern matches it. -/
def fileMatched (env : PyEnv) (paths excludes : List String)
    (f : String) : Bool :=
  (paths.find? (fun p => env.regexMatch p f)).isSome
    && !(excludes.find? (fun p => env.regexMatch p f)).isSome

/-- An environment with one candidate file ab matched by both patterns pA
and pB. -/
def c6Env : PyEnv :=
  { files := ["ab"], fileHash := fun _ => "h", vars := [],
    cmdOut := fun _ => "",
    regexMatch := fun p f => (p == "pA" || p == "pB") && f == "ab",
    targetChecksum := fun _ => "" }

/-- Claim C6 as stated is false: with include patterns pA and pB both
matching the sole candidate file ab, get_matched_files raises SpecError
(the include loop breaks at the first matching pattern, so pB is never
charged in matched_counts) even though every regex matches a real file. -/
theorem source_unmatched_error_despite_match :
    exceptIsOk (getMatchedFiles c6Env ["pA", "pB"] []) = false ∧
    ∀ p ∈ (["pA", "pB"] : List String), ∃ f ∈ c6Env.files,
      c6Env.regexMatch p f = true := by
  decide

/-- matched_counts after one file: charge the first matching include
pattern and the first matching exclude pattern. -/
theorem mfStep_counts (env : PyEnv) (paths excludes : List String)
    (acc : MFAcc) (f p : String) :
    (mfStep env paths excludes acc f).counts p
      = acc.counts p
        + (if paths.find? (fun q => env.regexMatch q f) == some p
           then 1 else 0)
        + (if excludes.find? (fun q => env.regexMatch q f) == some p
           then 1 else 0) := by
  cases hI : paths.find? (fun q => env.regexMatch q f) with
  | none =>
    cases hE : excludes.find? (fun q => env.regexMatch q f) with
    | none => simp [mfStep, hI, hE]
    | some pe =>
      by_cases hpe : pe = p
      · subst hpe; simp [mfStep, hI, hE, bumpCount]
      · simp [mfStep, hI, hE, bumpCount, hpe, Ne.symm hpe]
  | some pi =>
    cases hE : excludes.find? (fun q => env.regexMatch q f) with
    | none =>
      by_cases hpi : pi = p
      · subst hpi; simp [mfStep, hI, hE, bumpCount]
      · simp [mfStep, hI, hE, bumpCount, hpi, Ne.symm hpi]
    | some pe =>
      by_cases hpi : pi = p <;> by_cases hpe : pe = p <;>
        first
          | (subst hpi; subst hpe; simp [mfStep, hI, hE, bumpCount])
          | (subst hpi; simp [mfStep, hI, hE, bumpCount, hpe, Ne.symm hpe])
          | (subst hpe; simp [mfStep, hI, hE, bumpCount, hpi, Ne.symm hpi])
          | simp [mfStep, hI, hE, bumpCount, hpi, hpe, Ne.symm hpi,
              Ne.symm hpe]

/-- matched_counts after the whole file loop. -/
theorem mfFold_counts (env : PyEnv) (paths excludes : List String) :
    ∀ (fs : List String) (acc : MFAcc) (p : String),
      (fs.foldl (mfStep env paths excludes) acc).counts p
        = acc.counts p
          + (fs.filter
              (fun f => paths.find? (fun q => env.regexMatch q f)
                == some p)).length
          + (fs.filter
              (fun f => excludes.find? (fun q => env.regexMatch q f)
                == some p)).length := by
  intro fs
  induction fs with
  | nil => intro acc p; simp
  | cons f fs ih =>
    intro acc p
    rw [List.foldl_cons, ih, mfStep_counts]
    simp only [List.filter_cons]
    by_cases hI : (paths.find? (fun q => env.regexMatch q f) == some p)
        = true <;>
      by_cases hE : (excludes.find? (fun q => env.regexMatch q f) == some p)
          = true <;>
        simp [hI, hE] <;> omega

/-- The matched set after one file: append the file when it is include
matched and not exclude matched, and not already present. -/
theorem mfStep_matched (env : PyEnv) (paths excludes : List String)
    (acc : MFAcc) (f : String)
    (hnotin : f ∉ acc.matched) :
    (mfStep env paths excludes acc f).matched
      = if fileMatched env paths excludes f then acc.matched ++ [f]
        else acc.matched := by
  have hc : acc.matched.contains f = false := by
    simpa using hnotin
  cases hI : paths.find? (fun p => env.regexMatch p f) <;>
    cases hE : excludes.find? (fun p => env.regexMatch p f) <;>
      simp [mfStep, fileMatched, hI, hE, hc, hnotin]

/-- The matched set after the whole file loop, for distinct candidate
files not already in the accumulator. -/
theorem mfFold_matched (env : PyEnv) (paths excludes : List String) :
    ∀ (fs : List String) (acc : MFAcc),
      fs.Nodup → (∀ f ∈ fs, f ∉ acc.matched) →
      (fs.foldl (mfStep env paths excludes) acc).matched
        = acc.matched ++ fs.filter (fileMatched env paths excludes) := by
  intro fs
  induction fs with
  | nil => intro acc _ _; simp
  | cons f fs ih =>
    intro acc hnd hdisj
    have hnotin : f ∉ acc.matched := hdisj f (by simp)
    rw [List.foldl_cons]
    have hnd2 := (List.nodup_cons.mp hnd).2
    have hfnotin := (List.nodup_cons.mp hnd).1
    have hdisj2 : ∀ x ∈ fs, x ∉ (mfStep env paths excludes acc f).matched := by
      intro x hx
      rw [mfStep_matched env paths excludes acc f hnotin]
      have hxf : x ≠ f := fun hxf => hfnotin (hxf ▸ hx)
      have hxacc : x ∉ acc.matched := hdisj x (by simp [hx])
      split <;> simp [hxacc, hxf]
    rw [ih _ hnd2 hdisj2, mfStep_matched env paths excludes acc f hnotin]
    by_cases hm : fileMatched env paths excludes f = true <;>
      simp [List.filter_cons, hm]

/-- Claim C6 amended: get_matched_files raises a spec error exactly when
some regex in paths or excludes is never the first matching regex of its
list for any candidate file (a regex all of whose matches are claimed by
an earlier regex of the same list counts as unmatched); on success it
returns the sorted list of candidate files matched by an include pattern
and not by an exclude pattern, and the source-dependency checksum is
SHA-256 of the repr of the (path, file sha256) pairs over that list. -/
theorem source_dep_matched_files_behaviour (sha256 : String → String)
    (env : PyEnv) (paths excludes : List String)
    (hnd : env.files.Nodup) :
    (exceptIsOk (getMatchedFiles env paths excludes) = false ↔
      ∃ p ∈ paths ++ excludes, firstMatchCount env paths excludes p = 0) ∧
    (∀ out, getMatchedFiles env paths excludes = .ok out →
      out = sortStrings (env.files.filter (fileMatched env paths excludes)) ∧
      DependencyTypeSource.compute_checksum sha256 env paths excludes
        = .ok (sha256 (pyReprPairList
            (out.map (fun p => (p, env.fileHash p)))))) := by
  have hcounts : ∀ p,
      ((env.files.foldl (mfStep env paths excludes)
        ⟨[], fun _ => 0⟩).counts p)
        = firstMatchCount env paths excludes p := by
    intro p
    rw [mfFold_counts]
    simp [firstMatchCount]
  have hmatched :
      (env.files.foldl (mfStep env paths excludes)
        ⟨[], fun _ => 0⟩).matched
        = env.files.filter (fileMatched env paths excludes) := by
    rw [mfFold_matched env paths excludes env.files _ hnd (by simp)]
    simp
  constructor
  · simp only [getMatchedFiles]
    split
    case isTrue hall =>
      simp only [exceptIsOk]
      constructor
      · intro h; exact absurd h (by simp)
      · rintro ⟨p, hp, hcount⟩
        rw [List.all_eq_true] at hall
        have := hall p hp
        rw [hcounts p] at this
        simp [hcount] at this
    case isFalse hall =>
      simp only [exceptIsOk]
      constructor
      · intro _
        have hnotall : ¬ ∀ p ∈ paths ++ excludes,
            ((env.files.foldl (mfStep env paths excludes)
              ⟨[], fun _ => 0⟩).counts p ≠ 0) := by
          intro hforall
          exact hall (List.all_eq_true.mpr (by
            intro p hp
            simpa using hforall p hp))
        push_neg at hnotall
        rcases hnotall with ⟨p, hp, hcount⟩
        exact ⟨p, hp, by rw [← hcounts p]; exact hcount⟩
      · intro _; trivial
  · intro out hout
    have hout2 : out = sortStrings
        (env.files.filter (fileMatched env paths excludes)) := by
      revert hout
      simp only [getMatchedFiles]
      split
      · intro hout
        simp only [Except.ok.injEq] at hout
        rw [← hout, hmatched]
      · intro hout
        exact absurd hout (by simp)
    refine ⟨hout2, ?_⟩
    simp [DependencyTypeSource.compute_checksum, hout, bind, Except.bind]

/-- An environment with two candidate files both matched by pattern p1. -/
def c6wEnv : PyEnv :=
  { files := ["b", "a"], fileHash := fun _ => "h", vars := [],
    cmdOut := fun _ => "",
    regexMatch := fun p f => p == "p1" && (f == "a" || f == "b"),
    targetChecksum := fun _ => "" }

/-- Witness for source_dep_matched_files_behaviour: on a concrete
environment the checksum is the repr of the sorted matched pairs. -/
theorem source_dep_matched_files_witness :
    DependencyTypeSource.compute_checksum (fun s => s) c6wEnv ["p1"] []
      = .ok (pyReprPairList [("a", "h"), ("b", "h")]) :=
  ((source_dep_matched_files_behaviour (fun s => s) c6wEnv ["p1"] []
    (by decide)).2 ["a", "b"] (by rfl)).2

/-- list.index over an append whose left part misses the element. -/
theorem depIndex_append_right (d : DepM) :
    ∀ (l1 l2 : List DepM), d ∉ l1 →
      depIndex d (l1 ++ l2) = (depIndex d l2).map (· + l1.length) := by
  intro l1
  induction l1 with
  | nil =>
    intro l2 _
    cases h : depIndex d l2 <;> simp [h]
  | cons b l1 ih =>
    intro l2 hmem
    have hb : ¬ b = d := fun h => hmem (by simp [h])
    simp only [List.cons_append, depIndex, if_neg hb, List.append_eq]
    rw [ih l2 (fun h => hmem (by simp [h]))]
    cases h : depIndex d l2 with
    | none => simp [h]
    | some j => simp [h]; omega

/-- The replacement loop of post_process never writes into the prefix of
prepended propagating globals: every replaced entry has kind global while
every prefix entry does not, so the written index lies beyond the
prefix. -/
theorem resolveGlobalRefs_keeps_prefix (globals : List (String × DepM))
    (P : List DepM) (hPg : ∀ d ∈ P, d.kind ≠ "global") :
    ∀ (fuel : Nat) (rest : List DepM) (i : Nat) (out : List DepM),
      resolveGlobalRefs globals fuel (P ++ rest) i = .ok out →
      out.take P.length = P := by
  intro fuel
  induction fuel with
  | zero =>
    intro rest i out h
    simp only [resolveGlobalRefs, Except.ok.injEq] at h
    rw [← h]
    exact List.take_left P rest
  | succ fuel ih =>
    intro rest i out h
    simp only [resolveGlobalRefs] at h
    split at h
    case isTrue hlt =>
      split at h
      case isTrue hglob =>
        split at h
        case h_1 => exact absurd h (by simp)
        case h_2 g hg =>
          split at h
          case h_1 => exact absurd h (by simp)
          case h_2 idx hidx =>
            have hd : ((P ++ rest).get ⟨i, hlt⟩) ∉ P := fun hmem =>
              hPg _ hmem hglob
            rw [depIndex_append_right _ P rest hd] at hidx
            rcases Option.map_eq_some'.mp hidx with ⟨j, hj, hji⟩
            rw [List.set_append] at h
            rw [if_neg (by omega)] at h
            have hsub : idx - P.length = j := by omega
            rw [hsub] at h
            exact ih _ _ _ h
      case isFalse hglob => exact ih _ _ _ h
    case isFalse hge =>
      simp only [Except.ok.injEq] at h
      rw [← h]
      exact List.take_left P rest

/-- Claim C8: after spec post-processing, every target's dependency list
starts with the propagating global dependencies, prepended in declaration
order, so the target's fingerprint hash input begins with those
dependencies' checksums.  The hypothesis that global dependencies are of a
real (non global) kind is the resolution invariant of section 4.4. -/
theorem propagating_globals_prepended (globals : List (String × DepM))
    (deps out : List DepM) (checksumOf : DepM → String)
    (hPg : ∀ d ∈ propagatingGlobals globals, d.kind ≠ "global")
    (hok : postProcessDeps globals deps = .ok out) :
    out.take (propagatingGlobals globals).length
        = propagatingGlobals globals ∧
    (out.map checksumOf).take (propagatingGlobals globals).length
        = (propagatingGlobals globals).map checksumOf := by
  simp only [postProcessDeps] at hok
  have h1 := resolveGlobalRefs_keeps_prefix globals
    (propagatingGlobals globals) hPg _ deps 0 out hok
  refine ⟨h1, ?_⟩
  rw [← List.map_take, h1]

/-- A two-entry global dependency mapping, the first propagating. -/
def c8Globals : List (String × DepM) :=
  [("source:quack", ⟨"source", "source:quack", true, ""⟩),
   ("command:quack", ⟨"command", "command:quack", false, ""⟩)]

/-- One declared dependency referencing a global by name. -/
def c8Deps : List DepM := [⟨"global", "command:quack", false, ""⟩]

/-- Witness for propagating_globals_prepended at a concrete spec. -/
theorem propagating_globals_prepended_witness :
    (([⟨"source", "source:quack", true, ""⟩,
       ⟨"command", "command:quack", false, ""⟩] : List DepM).take
        (propagatingGlobals c8Globals).length)
      = propagatingGlobals c8Globals :=
  (propagating_globals_prepended c8Globals c8Deps
    [⟨"source", "source:quack", true, ""⟩,
     ⟨"command", "command:quack", false, ""⟩]
    (fun d => d.name) (by decide) (by rfl)).1

/-- flatMap respects pointwise equality of the mapped function. -/
theorem flatMap_ext_on {α β : Type} (l : List α) (f g : α → List β)
    (h : ∀ x ∈ l, f x = g x) : l.flatMap f = l.flatMap g := by
  induction l with
  | nil => rfl
  | cons a l ih =>
    simp only [List.flatMap_cons, h a (by simp),
      ih (fun x hx => h x (by simp [hx]))]

/-- Fuel irrelevance of the output fixpoint: any fuel beyond the index
computes the same outputs, since recursion only descends to smaller
indices. -/
theorem getOutputsFuel_irrel (T : List TOut) :
    ∀ (f g i : Nat), i < f → i < g →
      getOutputsFuel T f i = getOutputsFuel T g i := by
  intro f
  induction f with
  | zero => intro g i hf _; omega
  | succ f ihf =>
    intro g i hfi hgi
    cases g with
    | zero => omega
    | succ g =>
      simp only [getOutputsFuel]
      congr 1
      by_cases hinh : (T.getD i default).inherit = true
      · simp only [hinh, if_true]
        apply flatMap_ext_on
        intro j hjmem
        have hji : j < i := by
          have := (List.mem_filter.mp hjmem).2
          simpa using this
        exact ihf g j (by omega) (by omega)
      · have hinh2 : (T[i]?.getD default).inherit ≠ true := by
          simpa [List.getD] using hinh
        simp [hinh2]

/-- Claim C9: every target's final output paths contain its declared
paths; and for a target with inherit set (on a topologically indexed DAG,
dependencies pointing to smaller indices) they also contain the final
output paths of every target-kind dependency, transitively through the
fixpoint. -/
theorem outputs_inherit_superset (T : List TOut) (i : Nat)
    (hDag : ∀ j ∈ (T.getD i default).deps, j < i) :
    (∀ x ∈ (T.getD i default).paths, x ∈ finalOutputPaths T i) ∧
    ((T.getD i default).inherit = true →
      ∀ j ∈ (T.getD i default).deps,
        ∀ x ∈ finalOutputPaths T j, x ∈ finalOutputPaths T i) := by
  constructor
  · intro x hx
    simp only [finalOutputPaths]
    split
    · simp only [getOutputs, getOutputsFuel]
      exact List.mem_append_left _ hx
    · exact hx
  · intro hinh j hj x hx
    have hji : j < i := hDag j hj
    simp only [finalOutputPaths, hinh, if_true]
    simp only [getOutputs, getOutputsFuel, hinh, if_true]
    apply List.mem_append_right
    rw [List.mem_flatMap]
    refine ⟨j, ?_, ?_⟩
    · rw [List.mem_filter]
      exact ⟨hj, by simp [hji]⟩
    · have hx2 : x ∈ getOutputsFuel T (j + 1) j := by
        revert hx
        simp only [finalOutputPaths]
        split
        · intro hx; exact hx
        · intro hx
          simp only [getOutputsFuel]
          exact List.mem_append_left _ hx
      rw [getOutputsFuel_irrel T i (j + 1) j hji (by omega)]
      exact hx2

/-- The conftest spec: quack:test with one output, quack:test:child
inheriting it. -/
def c9Targets : List TOut :=
  [⟨["/tmp/quack-output"], false, []⟩, ⟨["/tmp/child-output"], true, [0]⟩]

/-- Witness for outputs_inherit_superset: the child target's final
outputs contain both its own declared path and the inherited one. -/
theorem outputs_inherit_witness :
    "/tmp/quack-output" ∈ finalOutputPaths c9Targets 1 ∧
    "/tmp/child-output" ∈ finalOutputPaths c9Targets 1 :=
  ⟨(outputs_inherit_superset c9Targets 1 (by decide)).2 (by rfl) 0 (by decide)
      "/tmp/quack-output" (by decide),
   (outputs_inherit_superset c9Targets 1 (by decide)).1 "/tmp/child-output"
      (by decide)⟩

/-- Later resolution steps preserve the resolved head: every remaining
global-kind entry differs from the non-global head, so its first
occurrence lies beyond position 0 and List.set leaves the head alone. -/
theorem initResolveLoop_head (globals : List (String × DepM)) (R : DepM)
    (hR : R.kind ≠ "global") :
    ∀ (rest tl out : List DepM),
      initResolveLoop globals rest (R :: tl) = .ok out →
      ∃ tl2, out = R :: tl2 := by
  intro rest
  induction rest with
  | nil =>
    intro tl out h
    simp only [initResolveLoop, Except.ok.injEq] at h
    exact ⟨tl, h.symm⟩
  | cons d rest ih =>
    intro tl out h
    simp only [initResolveLoop] at h
    split at h
    case isTrue hglob =>
      split at h
      case h_1 => exact absurd h (by simp)
      case h_2 g hg =>
        split at h
        case h_1 => exact absurd h (by simp)
        case h_2 idx hidx =>
          have hdR : ¬ R = d := fun hEq => hR (by rw [hEq, hglob])
          simp only [depIndex, if_neg hdR] at hidx
          rcases Option.map_eq_some'.mp hidx with ⟨j, hj, hji⟩
          rw [← hji] at h
          have hset : (R :: tl).set (j + 1) g = R :: tl.set j g := rfl
          rw [hset] at h
          exact ih _ _ h
    case isFalse => exact ih _ _ h

/-- Claim C10: Target construction inserts a reference to the global
dependency source:quack as the first element of every dependency list,
even when the target does not declare it; its resolution (of a real,
non-global kind) ends up at the head of the constructed list, and a spec
with no source:quack global dependency makes construction raise a spec
error. -/
theorem source_quack_inserted_first (globals : List (String × DepM))
    (declared : List DepM) :
    (lookupGlobal globals "source:quack" = none →
      exceptIsOk (targetInitDeps globals declared) = false) ∧
    (∀ R out, lookupGlobal globals "source:quack" = some R →
      R.kind ≠ "global" →
      targetInitDeps globals declared = .ok out →
      out.head? = some R) := by
  constructor
  · intro hnone
    simp [targetInitDeps, initResolveLoop, sourceQuackRef, hnone, bind,
      Except.bind, exceptIsOk]
  · intro R out hsome hRk h
    have hstep : initResolveLoop globals (sourceQuackRef :: declared)
        (sourceQuackRef :: declared)
        = initResolveLoop globals declared (R :: declared) := by
      simp [initResolveLoop, sourceQuackRef, hsome, depIndex]
    simp only [targetInitDeps, bind, Except.bind] at h
    rw [hstep] at h
    cases hres : initResolveLoop globals declared (R :: declared) with
    | error e => rw [hres] at h; exact absurd h (by simp)
    | ok resolved =>
      rw [hres] at h
      obtain ⟨tl2, htl2⟩ := initResolveLoop_head globals R hRk declared
        declared resolved hres
      subst htl2
      simp only [dispatchAll, bind, Except.bind] at h
      cases hdk : dispatchKind R with
      | error e => rw [hdk] at h; exact absurd h (by simp)
      | ok x =>
        rw [hdk] at h
        have hxR : x = R := by
          revert hdk
          simp only [dispatchKind]
          split
          · intro hdk; injection hdk with h2; exact h2.symm
          · intro hdk; exact absurd hdk (by simp)
        subst hxR
        cases hrest : dispatchAll tl2 with
        | error e => rw [hrest] at h; exact absurd h (by simp)
        | ok xs =>
          rw [hrest] at h
          simp only [pure, Except.pure, Except.ok.injEq] at h
          rw [← h]
          rfl

/-- A spec defining the source:quack global dependency. -/
def c10Globals : List (String × DepM) :=
  [("source:quack", ⟨"source", "source:quack", true, ""⟩)]

/-- A target declaring a single command dependency (and no source:quack
reference). -/
def c10Declared : List DepM := [⟨"command", "cmd", false, ""⟩]

/-- Witness for source_quack_inserted_first at a concrete spec: the
resolved source:quack global is the head of the constructed list. -/
theorem source_quack_inserted_first_witness :
    targetInitDeps c10Globals c10Declared
      = .ok [⟨"source", "source:quack", true, ""⟩,
             ⟨"command", "cmd", false, ""⟩] ∧
    ([⟨"source", "source:quack", true, ""⟩,
      ⟨"command", "cmd", false, ""⟩] : List DepM).head?
      = some ⟨"source", "source:quack", true, ""⟩ :=
  ⟨rfl, (source_quack_inserted_first c10Globals c10Declared).2
    ⟨"source", "source:quack", true, ""⟩
    [⟨"source", "source:quack", true, ""⟩, ⟨"command", "cmd", false, ""⟩]
    rfl (by decide) rfl⟩
